import Mathlib

/-!
Verification of the notes CRUD service (src/main.go) against its
natural-language specification.

The Go program keeps two package-level globals: an integer counter named id
and a map from ids to notes.  We embed that mutable state as the structure
Globals and each storage method as a state-passing function.  The Go map is
embedded as an association list with Go map semantics: reading an absent key
yields the zero value, writing replaces in place or appends, deleting removes
the entry.  Go map iteration order is unspecified, so every theorem about
ReadAll uses only order-independent facts (length and membership).
-/

/-- Embeds the Go struct Note with fields id, name, content (src/main.go). -/
structure Note where
  id : Int
  name : String
  content : String
deriving DecidableEq, Repr

/-- The Go zero value of Note, produced by reading an absent map key. -/
def Note.zero : Note := ⟨0, "", ""⟩

/-- The Go map from Id to Note, embedded as an association list. -/
abbrev NoteMap := List (Int × Note)

/-- Whether the map holds an entry for key k. -/
def NoteMap.hasKey : NoteMap → Int → Bool
  | [], _ => false
  | p :: rest, k => if p.1 = k then true else NoteMap.hasKey rest k

/-- Go map read noteMap[k]: the stored note, or the zero value if absent. -/
def NoteMap.lookupZero : NoteMap → Int → Note
  | [], _ => Note.zero
  | p :: rest, k => if p.1 = k then p.2 else NoteMap.lookupZero rest k

/-- Go map write noteMap[k] = v: replace in place if present, else append. -/
def NoteMap.insertKV (m : NoteMap) (k : Int) (v : Note) : NoteMap :=
  if NoteMap.hasKey m k then
    m.map (fun p => if p.1 = k then (k, v) else p)
  else
    m ++ [(k, v)]

/-- Go builtin delete(noteMap, k): removes the entry for k if present. -/
def NoteMap.eraseKey : NoteMap → Int → NoteMap
  | [], _ => []
  | p :: rest, k =>
    if p.1 = k then NoteMap.eraseKey rest k else p :: NoteMap.eraseKey rest k

/-- The package-level globals of src/main.go: var id Id and var noteMap. -/
structure Globals where
  id : Int
  noteMap : NoteMap
deriving DecidableEq

/-- InMemoryStorage.Read: return noteMap[id] (src/main.go lines 43-45). -/
def InMemoryStorage.Read (s : Globals) (id : Int) : Note :=
  NoteMap.lookupZero s.noteMap id

/-- InMemoryStorage.ReadAll: collect every stored note (lines 47-53).
Go map iteration order is unspecified; the model lists the notes in
insertion order, and theorems use only length and membership. -/
def InMemoryStorage.ReadAll (s : Globals) : List Note :=
  s.noteMap.map Prod.snd

/-- Two's-complement wrap of Go's 64-bit int: the value congruent mod 2^64
lying in the int64 range.  The Go specification defines signed integer
overflow to wrap, so id + 1 in Create is this, not unbounded addition. -/
def wrapInt64 (n : Int) : Int :=
  (n + 9223372036854775808) % 18446744073709551616 - 9223372036854775808

theorem wrapInt64_eq_self (n : Int) (h1 : -9223372036854775808 ≤ n)
    (h2 : n < 9223372036854775808) : wrapInt64 n = n := by
  rw [wrapInt64]; omega

theorem wrapInt64_mem_range (n : Int) :
    -9223372036854775808 ≤ wrapInt64 n ∧ wrapInt64 n < 9223372036854775808 := by
  rw [wrapInt64]
  constructor <;> omega

theorem wrapInt64_add_left (a b : Int) :
    wrapInt64 (wrapInt64 a + b) = wrapInt64 (a + b) := by
  rw [wrapInt64, wrapInt64, wrapInt64]
  omega

/-- InMemoryStorage.Create (lines 55-65): newId = id + 1 in Go int (64-bit,
wrapping) arithmetic, store, return. -/
def InMemoryStorage.Create (s : Globals) (name content : String) :
    Globals × Note :=
  let newId := wrapInt64 (s.id + 1)
  let newNote : Note := ⟨newId, name, content⟩
  (⟨newId, NoteMap.insertKV s.noteMap newId newNote⟩, newNote)

/-- InMemoryStorage.Update (lines 67-77): fetch (zero value if absent),
overwrite name and content only when the incoming string is non-empty,
store back under the same key, return the stored value. -/
def InMemoryStorage.Update (s : Globals) (id : Int) (name content : String) :
    Globals × Note :=
  let note0 := NoteMap.lookupZero s.noteMap id
  let note1 := if name ≠ "" then { note0 with name := name } else note0
  let note2 := if content ≠ "" then { note1 with content := content } else note1
  (⟨s.id, NoteMap.insertKV s.noteMap id note2⟩, note2)

/-- InMemoryStorage.Delete (lines 79-83): read the entry, remove it,
return the value read (the zero Note when the key was absent). -/
def InMemoryStorage.Delete (s : Globals) (id : Int) : Globals × Note :=
  (⟨s.id, NoteMap.eraseKey s.noteMap id⟩, NoteMap.lookupZero s.noteMap id)

/-! Basic facts about the embedded Go map. -/

theorem NoteMap.hasKey_append (m1 m2 : NoteMap) (k : Int) :
    NoteMap.hasKey (m1 ++ m2) k = (NoteMap.hasKey m1 k || NoteMap.hasKey m2 k) := by
  induction m1 with
  | nil => rw [List.nil_append, NoteMap.hasKey, Bool.false_or]
  | cons p rest ih =>
    rw [List.cons_append, NoteMap.hasKey, NoteMap.hasKey]
    by_cases h : p.1 = k
    · rw [if_pos h, if_pos h, Bool.true_or]
    · rw [if_neg h, if_neg h, ih]

theorem NoteMap.lookupZero_of_hasKey_false (m : NoteMap) (k : Int)
    (h : NoteMap.hasKey m k = false) : NoteMap.lookupZero m k = Note.zero := by
  induction m with
  | nil => rfl
  | cons p rest ih =>
    rw [NoteMap.hasKey] at h
    by_cases hp : p.1 = k
    · simp [hp] at h
    · rw [NoteMap.lookupZero]
      simp only [hp, if_false]
      exact ih (by simpa [hp] using h)

theorem NoteMap.lookupZero_mapReplace_ne (m : NoteMap) (k j : Int) (v : Note)
    (h : j ≠ k) :
    NoteMap.lookupZero (m.map (fun p => if p.1 = k then (k, v) else p)) j
      = NoteMap.lookupZero m j := by
  induction m with
  | nil => rfl
  | cons p rest ih =>
    rw [List.map_cons, NoteMap.lookupZero, NoteMap.lookupZero]
    by_cases hp : p.1 = k
    · have hkj : ¬ (k = j) := fun e => h e.symm
      have hpj : ¬ (p.1 = j) := by rw [hp]; exact hkj
      rw [if_pos hp, if_neg hkj, if_neg hpj, ih]
    · rw [if_neg hp]
      by_cases hpj : p.1 = j
      · rw [if_pos hpj, if_pos hpj]
      · rw [if_neg hpj, if_neg hpj, ih]

theorem NoteMap.lookupZero_mapReplace_eq (m : NoteMap) (k : Int) (v : Note)
    (h : NoteMap.hasKey m k = true) :
    NoteMap.lookupZero (m.map (fun p => if p.1 = k then (k, v) else p)) k = v := by
  induction m with
  | nil => simp [NoteMap.hasKey] at h
  | cons p rest ih =>
    by_cases hp : p.1 = k
    · simp [NoteMap.lookupZero, hp]
    · rw [NoteMap.hasKey] at h
      simp only [hp, if_false] at h
      simp [NoteMap.lookupZero, hp, ih h]

theorem NoteMap.lookupZero_append_single (m : NoteMap) (k j : Int) (v : Note)
    (h : NoteMap.hasKey m k = false) :
    NoteMap.lookupZero (m ++ [(k, v)]) j
      = if j = k then v else NoteMap.lookupZero m j := by
  induction m with
  | nil =>
    rw [List.nil_append]
    by_cases hj : j = k
    · subst hj; simp [NoteMap.lookupZero]
    · simp [NoteMap.lookupZero, hj, show ¬ (k = j) from fun e => hj e.symm]
  | cons p rest ih =>
    rw [NoteMap.hasKey] at h
    by_cases hp : p.1 = k
    · rw [if_pos hp] at h; exact absurd h (by simp)
    · rw [if_neg hp] at h
      rw [List.cons_append, NoteMap.lookupZero, NoteMap.lookupZero]
      by_cases hpj : p.1 = j
      · have hj : ¬ (j = k) := fun e => hp (hpj.trans e)
        rw [if_pos hpj, if_neg hj, if_pos hpj]
      · rw [if_neg hpj, if_neg hpj, ih h]

theorem NoteMap.lookupZero_insertKV (m : NoteMap) (k : Int) (v : Note) (j : Int) :
    NoteMap.lookupZero (NoteMap.insertKV m k v) j
      = if j = k then v else NoteMap.lookupZero m j := by
  rw [NoteMap.insertKV]
  by_cases h : NoteMap.hasKey m k
  · rw [if_pos h]
    by_cases hj : j = k
    · rw [if_pos hj, hj]
      exact NoteMap.lookupZero_mapReplace_eq m k v h
    · rw [if_neg hj]
      exact NoteMap.lookupZero_mapReplace_ne m k j v hj
  · rw [if_neg h]
    exact NoteMap.lookupZero_append_single m k j v (by simpa using h)

theorem NoteMap.hasKey_mapReplace (m : NoteMap) (k j : Int) (v : Note) :
    NoteMap.hasKey (m.map (fun p => if p.1 = k then (k, v) else p)) j
      = NoteMap.hasKey m j := by
  induction m with
  | nil => rfl
  | cons p rest ih =>
    by_cases hp : p.1 = k
    · by_cases hpj : p.1 = j
      · have : k = j := hp.symm.trans hpj
        simp [NoteMap.hasKey, hp, hpj, this]
      · have : ¬ (k = j) := fun e => hpj (hp.trans e)
        simp [NoteMap.hasKey, hp, hpj, this, ih]
    · simp [NoteMap.hasKey, hp, ih]

theorem NoteMap.hasKey_insertKV (m : NoteMap) (k : Int) (v : Note) (j : Int) :
    NoteMap.hasKey (NoteMap.insertKV m k v) j
      = if j = k then true else NoteMap.hasKey m j := by
  rw [NoteMap.insertKV]
  by_cases h : NoteMap.hasKey m k
  · rw [if_pos h, NoteMap.hasKey_mapReplace]
    by_cases hj : j = k
    · rw [if_pos hj, hj, h]
    · rw [if_neg hj]
  · rw [if_neg h, NoteMap.hasKey_append]
    by_cases hj : j = k
    · have hk : NoteMap.hasKey [(k, v)] j = true := by
        rw [NoteMap.hasKey, if_pos (show (k, v).1 = j from hj.symm)]
      rw [hk, if_pos hj, Bool.or_true]
    · have hk : NoteMap.hasKey [(k, v)] j = false := by
        rw [NoteMap.hasKey, if_neg (show ¬ (k, v).1 = j from fun e => hj e.symm),
          NoteMap.hasKey]
      rw [hk, if_neg hj, Bool.or_false]

theorem NoteMap.lookupZero_eraseKey (m : NoteMap) (k j : Int) :
    NoteMap.lookupZero (NoteMap.eraseKey m k) j
      = if j = k then Note.zero else NoteMap.lookupZero m j := by
  induction m with
  | nil => rw [NoteMap.eraseKey]; by_cases hj : j = k <;> simp [hj, NoteMap.lookupZero]
  | cons p rest ih =>
    by_cases hp : p.1 = k
    · have hpj : j = k → ¬ (p.1 = j) ∨ True := fun _ => Or.inr trivial
      rw [NoteMap.eraseKey, if_pos hp, ih]
      by_cases hj : j = k
      · rw [if_pos hj, if_pos hj]
      · have : ¬ (p.1 = j) := fun e => hj ((e.symm.trans hp : j = k))
        rw [if_neg hj, if_neg hj, NoteMap.lookupZero, if_neg this]
    · rw [NoteMap.eraseKey, if_neg hp]
      by_cases hpj : p.1 = j
      · have hj : ¬ (j = k) := fun e => hp (hpj.trans e)
        rw [NoteMap.lookupZero, if_pos hpj, if_neg hj, NoteMap.lookupZero, if_pos hpj]
      · rw [NoteMap.lookupZero, if_neg hpj, ih, NoteMap.lookupZero, if_neg hpj]

/-! Observations shared by several storage operations. -/

theorem InMemoryStorage.read_update_self (s : Globals) (k : Int) (n c : String) :
    InMemoryStorage.Read (InMemoryStorage.Update s k n c).1 k
      = (InMemoryStorage.Update s k n c).2 := by
  simp only [InMemoryStorage.Update, InMemoryStorage.Read]
  rw [NoteMap.lookupZero_insertKV, if_pos rfl]

theorem InMemoryStorage.hasKey_update_self (s : Globals) (k : Int) (n c : String) :
    NoteMap.hasKey (InMemoryStorage.Update s k n c).1.noteMap k = true := by
  simp only [InMemoryStorage.Update]
  rw [NoteMap.hasKey_insertKV, if_pos rfl]

theorem InMemoryStorage.read_create_self (s : Globals) (n c : String) :
    InMemoryStorage.Read (InMemoryStorage.Create s n c).1 (wrapInt64 (s.id + 1))
      = (InMemoryStorage.Create s n c).2 := by
  simp only [InMemoryStorage.Create, InMemoryStorage.Read]
  rw [NoteMap.lookupZero_insertKV, if_pos rfl]

/-- One storage operation, used to quantify over arbitrary later activity. -/
inductive Op where
  | createOp (name content : String)
  | readOp (id : Int)
  | readAllOp
  | updateOp (id : Int) (name content : String)
  | deleteOp (id : Int)
deriving DecidableEq

/-- The effect of one storage operation on the globals (reads change nothing). -/
def applyOp (s : Globals) : Op → Globals
  | .createOp n c => (InMemoryStorage.Create s n c).1
  | .readOp _ => s
  | .readAllOp => s
  | .updateOp i n c => (InMemoryStorage.Update s i n c).1
  | .deleteOp i => (InMemoryStorage.Delete s i).1

/-- The effect of a sequence of storage operations on the globals. -/
def applyOps : Globals → List Op → Globals
  | s, [] => s
  | s, op :: rest => applyOps (applyOp s op) rest

/-- The number of Create operations in a sequence. -/
def countCreates : List Op → Nat
  | [] => 0
  | .createOp _ _ :: rest => countCreates rest + 1
  | _ :: rest => countCreates rest

/-- As long as the counter cannot reach the int64 maximum, a sequence of
operations advances it by exactly the number of creates it holds. -/
theorem applyOps_id_no_wrap (ops : List Op) : ∀ t : Globals,
    -9223372036854775808 ≤ t.id →
    t.id + (countCreates ops : Int) < 9223372036854775808 →
    (applyOps t ops).id = t.id + (countCreates ops : Int) := by
  induction ops with
  | nil =>
    intro t _ _
    simp [applyOps, countCreates]
  | cons op rest ih =>
    intro t hlo hhi
    cases op with
    | createOp n c =>
      have hcc : (countCreates (Op.createOp n c :: rest) : Int)
          = (countCreates rest : Int) + 1 := by
        rw [countCreates]
        push_cast
        omega
      rw [hcc] at hhi
      have hw : (InMemoryStorage.Create t n c).1.id = t.id + 1 := by
        show wrapInt64 (t.id + 1) = t.id + 1
        exact wrapInt64_eq_self (t.id + 1) (by omega)
          (by have := Int.natCast_nonneg (countCreates rest); omega)
      have := ih (InMemoryStorage.Create t n c).1
        (by rw [hw]; omega)
        (by rw [hw]; omega)
      rw [applyOps, hcc]
      show (applyOps (InMemoryStorage.Create t n c).1 rest).id
          = t.id + ((countCreates rest : Int) + 1)
      rw [this, hw]
      omega
    | readOp i =>
      have hid : (applyOp t (Op.readOp i)).id = t.id := rfl
      have hc : (countCreates (Op.readOp i :: rest) : Int)
          = (countCreates rest : Int) := rfl
      rw [applyOps, hc]
      have := ih (applyOp t (Op.readOp i)) (by rw [hid]; exact hlo)
        (by rw [hid]; rw [hc] at hhi; exact hhi)
      rw [this, hid]
    | readAllOp =>
      have hid : (applyOp t Op.readAllOp).id = t.id := rfl
      have hc : (countCreates (Op.readAllOp :: rest) : Int)
          = (countCreates rest : Int) := rfl
      rw [applyOps, hc]
      have := ih (applyOp t Op.readAllOp) (by rw [hid]; exact hlo)
        (by rw [hid]; rw [hc] at hhi; exact hhi)
      rw [this, hid]
    | updateOp i n c =>
      have hid : (applyOp t (Op.updateOp i n c)).id = t.id := rfl
      have hc : (countCreates (Op.updateOp i n c :: rest) : Int)
          = (countCreates rest : Int) := rfl
      rw [applyOps, hc]
      have := ih (applyOp t (Op.updateOp i n c)) (by rw [hid]; exact hlo)
        (by rw [hid]; rw [hc] at hhi; exact hhi)
      rw [this, hid]
    | deleteOp i =>
      have hid : (applyOp t (Op.deleteOp i)).id = t.id := rfl
      have hc : (countCreates (Op.deleteOp i :: rest) : Int)
          = (countCreates rest : Int) := rfl
      rw [applyOps, hc]
      have := ih (applyOp t (Op.deleteOp i)) (by rw [hid]; exact hlo)
        (by rw [hid]; rw [hc] at hhi; exact hhi)
      rw [this, hid]

/-- A run of k consecutive creates moves the counter to the wrap of
(start + k), for any in-range start. -/
theorem applyOps_id_replicate_create (n c : String) : ∀ (k : Nat) (t : Globals),
    -9223372036854775808 ≤ t.id → t.id < 9223372036854775808 →
    (applyOps t (List.replicate k (Op.createOp n c))).id
      = wrapInt64 (t.id + (k : Int)) := by
  intro k
  induction k with
  | zero =>
    intro t hlo hhi
    simp only [List.replicate, applyOps, Nat.cast_zero, add_zero]
    exact (wrapInt64_eq_self t.id hlo hhi).symm
  | succ k ih =>
    intro t hlo hhi
    rw [List.replicate_succ, applyOps]
    have hid : (applyOp t (Op.createOp n c)).id = wrapInt64 (t.id + 1) := rfl
    have hrange := wrapInt64_mem_range (t.id + 1)
    have := ih (applyOp t (Op.createOp n c))
      (by rw [hid]; exact hrange.1) (by rw [hid]; exact hrange.2)
    rw [this, hid, wrapInt64_add_left]
    have harg : t.id + 1 + (k : Int) = t.id + ((k : Nat) + 1 : Nat) := by
      push_cast
      omega
    rw [harg]

/-- Counterexample to claim C1 as stated: Go int wraps.  At the state whose
counter is the int64 maximum, Create allocates the wrapped id, not counter
plus one; and starting from the empty state, the id assigned by the first
Create (id 1) is assigned again by the Create that follows 2^64 - 1 further
creates, so a Create-assigned id is reassigned by a later Create. -/
theorem c1_counterexample_int64_wrap :
    (InMemoryStorage.Create ⟨9223372036854775807, []⟩ "a" "b").2.id
        ≠ 9223372036854775807 + 1
    ∧ (InMemoryStorage.Create
          (applyOps (InMemoryStorage.Create ⟨0, []⟩ "a" "b").1
            (List.replicate 18446744073709551615 (Op.createOp "a" "b"))) "a" "b").2.id
        = (InMemoryStorage.Create ⟨0, []⟩ "a" "b").2.id := by
  constructor
  · decide
  · have h1 : (InMemoryStorage.Create ⟨0, []⟩ "a" "b").1.id = 1 := by decide
    have happly := applyOps_id_replicate_create "a" "b" 18446744073709551615
      (InMemoryStorage.Create ⟨0, []⟩ "a" "b").1
      (by rw [h1]; omega) (by rw [h1]; omega)
    rw [h1] at happly
    have hzero : (applyOps (InMemoryStorage.Create ⟨0, []⟩ "a" "b").1
        (List.replicate 18446744073709551615 (Op.createOp "a" "b"))).id = 0 := by
      rw [happly]
      decide
    show wrapInt64 ((applyOps (InMemoryStorage.Create ⟨0, []⟩ "a" "b").1
        (List.replicate 18446744073709551615 (Op.createOp "a" "b"))).id + 1)
      = wrapInt64 ((0 : Int) + 1)
    rw [hzero]

/-- Claim C1 amended for 64-bit wrap-around: for every storage state whose
counter is a valid int64 value and every later operation sequence with few
enough creates that the counter stays below the int64 maximum, Create
allocates the id one greater than the counter and stores the new note under
it, two sequential Creates receive ids that differ by exactly 1, and the id
assigned by the first Create is not assigned by the later Create.  (At the
wrap boundary Create allocates the int64 minimum instead, and ids repeat
after 2^64 creates.) -/
theorem c1_amended_create_sequential_ids (s : Globals) (na ca nb cb : String)
    (ops : List Op)
    (hlo : -9223372036854775808 ≤ s.id)
    (hhi : s.id + 1 + (countCreates ops : Int) + 1 < 9223372036854775808) :
    (InMemoryStorage.Create s na ca).2.id = s.id + 1
    ∧ InMemoryStorage.Read (InMemoryStorage.Create s na ca).1 (s.id + 1)
        = (InMemoryStorage.Create s na ca).2
    ∧ (InMemoryStorage.Create (InMemoryStorage.Create s na ca).1 nb cb).2.id
        = (InMemoryStorage.Create s na ca).2.id + 1
    ∧ (InMemoryStorage.Create
          (applyOps (InMemoryStorage.Create s na ca).1 ops) nb cb).2.id
        ≠ (InMemoryStorage.Create s na ca).2.id := by
  have hcc : (0 : Int) ≤ (countCreates ops : Int) := Int.natCast_nonneg _
  have hw1 : wrapInt64 (s.id + 1) = s.id + 1 :=
    wrapInt64_eq_self (s.id + 1) (by omega) (by omega)
  have hid1 : (InMemoryStorage.Create s na ca).2.id = s.id + 1 := hw1
  have hid1st : (InMemoryStorage.Create s na ca).1.id = s.id + 1 := hw1
  refine ⟨hid1, ?_, ?_, ?_⟩
  · have hread := InMemoryStorage.read_create_self s na ca
    rw [hw1] at hread
    exact hread
  · show wrapInt64 ((InMemoryStorage.Create s na ca).1.id + 1)
        = (InMemoryStorage.Create s na ca).2.id + 1
    rw [hid1st, hid1]
    exact wrapInt64_eq_self (s.id + 1 + 1) (by omega) (by omega)
  · have hx : (applyOps (InMemoryStorage.Create s na ca).1 ops).id
        = s.id + 1 + (countCreates ops : Int) := by
      have := applyOps_id_no_wrap ops (InMemoryStorage.Create s na ca).1
        (by rw [hid1st]; omega) (by rw [hid1st]; omega)
      rw [hid1st] at this
      exact this
    intro heq
    have heq' : wrapInt64
        ((applyOps (InMemoryStorage.Create s na ca).1 ops).id + 1)
        = s.id + 1 := by rw [← hid1]; exact heq
    rw [hx] at heq'
    rw [wrapInt64_eq_self (s.id + 1 + (countCreates ops : Int) + 1)
      (by omega) (by omega)] at heq'
    omega

/-- Witness for the amended claim C1 at the empty state and a later delete
of the created note. -/
theorem c1_amended_create_sequential_ids_witness :
    -9223372036854775808 ≤ (Globals.mk 0 []).id
    ∧ (Globals.mk 0 []).id + 1 + (countCreates [Op.deleteOp 1] : Int) + 1
        < 9223372036854775808
    ∧ ((InMemoryStorage.Create ⟨0, []⟩ "a" "b").2.id = (0 : Int) + 1
      ∧ InMemoryStorage.Read (InMemoryStorage.Create ⟨0, []⟩ "a" "b").1 ((0 : Int) + 1)
          = (InMemoryStorage.Create ⟨0, []⟩ "a" "b").2
      ∧ (InMemoryStorage.Create (InMemoryStorage.Create ⟨0, []⟩ "a" "b").1 "c" "d").2.id
          = (InMemoryStorage.Create ⟨0, []⟩ "a" "b").2.id + 1
      ∧ (InMemoryStorage.Create
            (applyOps (InMemoryStorage.Create ⟨0, []⟩ "a" "b").1 [Op.deleteOp 1])
            "c" "d").2.id
          ≠ (InMemoryStorage.Create ⟨0, []⟩ "a" "b").2.id) :=
  ⟨by decide, by decide,
   c1_amended_create_sequential_ids ⟨0, []⟩ "a" "b" "c" "d" [Op.deleteOp 1]
     (by decide) (by decide)⟩

/-- Claim C2: for an id present in storage, Update overwrites name and
content only where the incoming string is non-empty: Update(id, "", c) with
non-empty c changes only content, and Update(id, "", "") returns the stored
note unchanged and leaves every stored note unchanged. -/
theorem c2_update_empty_means_no_change (s : Globals) (k : Int)
    (h : NoteMap.hasKey s.noteMap k = true) :
    (∀ c : String, c ≠ "" →
        (InMemoryStorage.Update s k "" c).2
            = { InMemoryStorage.Read s k with content := c }
        ∧ InMemoryStorage.Read (InMemoryStorage.Update s k "" c).1 k
            = { InMemoryStorage.Read s k with content := c })
    ∧ (InMemoryStorage.Update s k "" "").2 = InMemoryStorage.Read s k
    ∧ (∀ j : Int,
        InMemoryStorage.Read (InMemoryStorage.Update s k "" "").1 j
          = InMemoryStorage.Read s j) := by
  refine ⟨?_, ?_, ?_⟩
  · intro c hc
    constructor
    · simp [InMemoryStorage.Update, InMemoryStorage.Read, hc]
    · rw [InMemoryStorage.read_update_self]
      simp [InMemoryStorage.Update, InMemoryStorage.Read, hc]
  · simp [InMemoryStorage.Update, InMemoryStorage.Read]
  · intro j
    simp only [InMemoryStorage.Update, InMemoryStorage.Read, ne_eq,
      not_true_eq_false, if_false]
    rw [NoteMap.lookupZero_insertKV]
    by_cases hj : j = k
    · rw [if_pos hj, hj]
    · rw [if_neg hj]

/-- Claim C3: updating an id that is absent from storage silently creates a
map entry under that id whose note carries exactly the incoming name and
content (each field set only when the incoming string is non-empty, and the
empty string otherwise, which coincide) and id field 0, and returns it. -/
theorem c3_update_absent_creates_entry (s : Globals) (k : Int)
    (name content : String) (h : NoteMap.hasKey s.noteMap k = false) :
    (InMemoryStorage.Update s k name content).2 = ⟨0, name, content⟩
    ∧ InMemoryStorage.Read (InMemoryStorage.Update s k name content).1 k
        = ⟨0, name, content⟩
    ∧ NoteMap.hasKey (InMemoryStorage.Update s k name content).1.noteMap k
        = true := by
  have h0 : NoteMap.lookupZero s.noteMap k = Note.zero :=
    NoteMap.lookupZero_of_hasKey_false s.noteMap k h
  have hnote : (InMemoryStorage.Update s k name content).2 = ⟨0, name, content⟩ := by
    simp only [InMemoryStorage.Update, h0]
    by_cases hn : name = "" <;> by_cases hc : content = "" <;>
      simp [hn, hc, Note.zero]
  refine ⟨hnote, ?_, InMemoryStorage.hasKey_update_self s k name content⟩
  rw [InMemoryStorage.read_update_self, hnote]

/-- Claim C4: reading an absent id yields the zero-valued Note with no error
signaled; Delete followed by Read of the same id yields the zero-valued
Note; and Delete returns the pre-deletion value, which is the zero-valued
Note when the id was absent. -/
theorem c4_absent_is_zero_note (s : Globals) (k : Int) :
    (NoteMap.hasKey s.noteMap k = false → InMemoryStorage.Read s k = Note.zero)
    ∧ InMemoryStorage.Read (InMemoryStorage.Delete s k).1 k = Note.zero
    ∧ (InMemoryStorage.Delete s k).2 = InMemoryStorage.Read s k := by
  refine ⟨fun h => NoteMap.lookupZero_of_hasKey_false s.noteMap k h, ?_, rfl⟩
  simp only [InMemoryStorage.Delete, InMemoryStorage.Read]
  rw [NoteMap.lookupZero_eraseKey, if_pos rfl]

/-- Witness for claim C4 at a concrete storage state and an absent id. -/
theorem c4_absent_is_zero_note_witness :
    NoteMap.hasKey (Globals.mk 1 [(1, ⟨1, "a", "b"⟩)]).noteMap 5 = false
    ∧ InMemoryStorage.Read ⟨1, [(1, ⟨1, "a", "b"⟩)]⟩ 5 = Note.zero
    ∧ InMemoryStorage.Read (InMemoryStorage.Delete ⟨1, [(1, ⟨1, "a", "b"⟩)]⟩ 5).1 5
        = Note.zero
    ∧ (InMemoryStorage.Delete ⟨1, [(1, ⟨1, "a", "b"⟩)]⟩ 5).2
        = InMemoryStorage.Read ⟨1, [(1, ⟨1, "a", "b"⟩)]⟩ 5 :=
  ⟨by decide,
   (c4_absent_is_zero_note ⟨1, [(1, ⟨1, "a", "b"⟩)]⟩ 5).1 (by decide),
   (c4_absent_is_zero_note ⟨1, [(1, ⟨1, "a", "b"⟩)]⟩ 5).2.1,
   (c4_absent_is_zero_note ⟨1, [(1, ⟨1, "a", "b"⟩)]⟩ 5).2.2⟩

/-- Claim C10: starting from the empty globals, Update with id 1 (greater
than the counter) inserts an entry under key 1 without advancing the
counter, and the stored note keeps id field 0 rather than the key; the next
Create then allocates the same key 1 and replaces that entry, so a stored
note is overwritten by Create. -/
theorem c10_create_overwrites_after_update :
    (InMemoryStorage.Update ⟨0, []⟩ 1 "x" "y").1.id = 0
    ∧ NoteMap.hasKey (InMemoryStorage.Update ⟨0, []⟩ 1 "x" "y").1.noteMap 1 = true
    ∧ InMemoryStorage.Read (InMemoryStorage.Update ⟨0, []⟩ 1 "x" "y").1 1
        = ⟨0, "x", "y"⟩
    ∧ (InMemoryStorage.Create (InMemoryStorage.Update ⟨0, []⟩ 1 "x" "y").1 "a" "b").2.id
        = 1
    ∧ InMemoryStorage.Read
          (InMemoryStorage.Create (InMemoryStorage.Update ⟨0, []⟩ 1 "x" "y").1 "a" "b").1 1
        = ⟨1, "a", "b"⟩
    ∧ (⟨1, "a", "b"⟩ : Note) ≠ ⟨0, "x", "y"⟩ := by
  refine ⟨rfl, rfl, rfl, rfl, rfl, by decide⟩

/-! Sequential creates from a given state, for the ReadAll claim. -/

/-- Run Create once per (name, content) pair, left to right. -/
def createSeq : Globals → List (String × String) → Globals
  | s, [] => s
  | s, p :: rest => createSeq (InMemoryStorage.Create s p.1 p.2).1 rest

/-- The map entries produced by sequential creates above counter value c. -/
def seqEntries (c : Int) : List (String × String) → NoteMap
  | [] => []
  | p :: rest => (c + 1, ⟨c + 1, p.1, p.2⟩) :: seqEntries (c + 1) rest

/-- Every key of the map is at most the counter value c. -/
def keysLE (m : NoteMap) (c : Int) : Prop := ∀ p ∈ m, p.1 ≤ c

theorem NoteMap.hasKey_false_of_keysLE (m : NoteMap) (c k : Int)
    (h : keysLE m c) (hk : c < k) : NoteMap.hasKey m k = false := by
  induction m with
  | nil => rfl
  | cons p rest ih =>
    rw [NoteMap.hasKey]
    have hp : ¬ (p.1 = k) := by
      have := h p (List.mem_cons_self p rest)
      omega
    rw [if_neg hp]
    exact ih (fun q hq => h q (List.mem_cons_of_mem p hq))

theorem createSeq_eq (inputs : List (String × String)) :
    ∀ (c : Int) (m : NoteMap), keysLE m c →
      -9223372036854775808 ≤ c →
      c + (inputs.length : Int) < 9223372036854775808 →
      createSeq ⟨c, m⟩ inputs = ⟨c + inputs.length, m ++ seqEntries c inputs⟩ := by
  induction inputs with
  | nil =>
    intro c m _ _ _
    simp [createSeq, seqEntries]
  | cons p rest ih =>
    intro c m hm hlo hhi
    have hlen : ((p :: rest).length : Int) = (rest.length : Int) + 1 := by
      rw [List.length_cons]; push_cast; omega
    rw [hlen] at hhi
    have hw : wrapInt64 (c + 1) = c + 1 := by
      have := Int.natCast_nonneg rest.length
      exact wrapInt64_eq_self (c + 1) (by omega) (by omega)
    have hnk : NoteMap.hasKey m (c + 1) = false :=
      NoteMap.hasKey_false_of_keysLE m c (c + 1) hm (by omega)
    have hcreate : (InMemoryStorage.Create ⟨c, m⟩ p.1 p.2).1
        = ⟨c + 1, m ++ [(c + 1, ⟨c + 1, p.1, p.2⟩)]⟩ := by
      simp only [InMemoryStorage.Create, hw, NoteMap.insertKV, hnk]
      rw [if_neg (by simp)]
    have hm' : keysLE (m ++ [(c + 1, ⟨c + 1, p.1, p.2⟩)]) (c + 1) := by
      intro q hq
      rcases List.mem_append.mp hq with hq1 | hq2
      · have := hm q hq1; omega
      · rcases List.mem_singleton.mp hq2 with rfl; simp
    rw [createSeq, hcreate, ih (c + 1) _ hm' (by omega) (by omega)]
    rw [seqEntries, List.append_assoc, List.singleton_append]
    congr 1
    simp only [List.length_cons]
    push_cast
    omega

theorem seqEntries_length (inputs : List (String × String)) :
    ∀ c : Int, (seqEntries c inputs).length = inputs.length := by
  induction inputs with
  | nil => intro c; rfl
  | cons p rest ih =>
    intro c
    rw [seqEntries, List.length_cons, ih (c + 1), List.length_cons]

theorem seqEntries_key_gt (inputs : List (String × String)) :
    ∀ (c : Int) (p : Int × Note), p ∈ seqEntries c inputs → c < p.1 := by
  induction inputs with
  | nil => intro c p hp; simp [seqEntries] at hp
  | cons q rest ih =>
    intro c p hp
    rw [seqEntries] at hp
    rcases List.mem_cons.mp hp with h1 | h2
    · rw [h1]; simp
    · have := ih (c + 1) p h2; omega

theorem eraseKey_all_of_le (inputs : List (String × String)) :
    ∀ (c k : Int), k ≤ c →
      NoteMap.eraseKey (seqEntries c inputs) k = seqEntries c inputs := by
  induction inputs with
  | nil => intro c k _; rfl
  | cons p rest ih =>
    intro c k hk
    rw [seqEntries, NoteMap.eraseKey, if_neg (by omega : ¬ (c + 1 = k)), ih (c + 1) k (by omega)]

theorem eraseKey_seqEntries_length (inputs : List (String × String)) :
    ∀ (c k : Int), c < k → k ≤ c + inputs.length →
      (NoteMap.eraseKey (seqEntries c inputs) k).length + 1 = inputs.length := by
  induction inputs with
  | nil =>
    intro c k h1 h2
    simp at h2
    omega
  | cons p rest ih =>
    intro c k h1 h2
    rw [seqEntries, NoteMap.eraseKey]
    by_cases hk : c + 1 = k
    · rw [if_pos hk, eraseKey_all_of_le rest (c + 1) k (le_of_eq hk.symm),
        seqEntries_length rest (c + 1), List.length_cons]
    · rw [if_neg hk]
      have h1' : c + 1 < k := by omega
      have h2' : k ≤ c + 1 + rest.length := by
        rw [List.length_cons] at h2
        push_cast at h2 ⊢
        omega
      have := ih (c + 1) k h1' h2'
      simp only [List.length_cons]
      omega

theorem seqEntries_mem (inputs : List (String × String)) :
    ∀ (c : Int) (p : Int × Note), p ∈ seqEntries c inputs →
      ∃ i : Fin inputs.length,
        p = (c + 1 + (i : Int), ⟨c + 1 + (i : Int), (inputs.get i).1, (inputs.get i).2⟩) := by
  induction inputs with
  | nil => intro c p hp; simp [seqEntries] at hp
  | cons q rest ih =>
    intro c p hp
    rw [seqEntries] at hp
    rcases List.mem_cons.mp hp with h1 | h2
    · refine ⟨⟨0, by simp⟩, ?_⟩
      rw [h1]
      simp
    · rcases ih (c + 1) p h2 with ⟨i, hi⟩
      refine ⟨⟨i.val + 1, by simp⟩, ?_⟩
      rw [hi]
      have harith : c + 1 + 1 + (i.val : Int) = c + 1 + ((i.val : Int) + 1) := by omega
      simp only [List.get_cons_succ]
      push_cast
      rw [harith]

theorem mem_eraseKey (m : NoteMap) (k : Int) (p : Int × Note)
    (hp : p ∈ NoteMap.eraseKey m k) : p ∈ m ∧ p.1 ≠ k := by
  induction m with
  | nil => simp [NoteMap.eraseKey] at hp
  | cons q rest ih =>
    rw [NoteMap.eraseKey] at hp
    by_cases hq : q.1 = k
    · rw [if_pos hq] at hp
      rcases ih hp with ⟨h1, h2⟩
      exact ⟨List.mem_cons_of_mem q h1, h2⟩
    · rw [if_neg hq] at hp
      rcases List.mem_cons.mp hp with h1 | h2
      · exact ⟨h1 ▸ List.mem_cons_self q rest, h1 ▸ hq⟩
      · rcases ih h2 with ⟨h1, h2'⟩
        exact ⟨List.mem_cons_of_mem q h1, h2'⟩

/-- Claim C5 amended for 64-bit wrap-around: starting from the empty
globals, for every N below 2^63 (so that the id counter never wraps), after
creating one note per input pair and then deleting one of the created ids k
(1 through N), ReadAll returns exactly N - 1 notes, and every returned note
is a created note other than the deleted one, carrying the name and content
it was created with.  (For N above 2^64 the wrapped counter reuses map keys
and the count N - 1 fails.) -/
theorem c5_readall_after_creates_and_delete (inputs : List (String × String))
    (k : Int) (h1 : 1 ≤ k) (h2 : k ≤ (inputs.length : Int))
    (h3 : (inputs.length : Int) < 9223372036854775808) :
    (InMemoryStorage.ReadAll
        (InMemoryStorage.Delete (createSeq ⟨0, []⟩ inputs) k).1).length + 1
      = inputs.length
    ∧ ∀ nt ∈ InMemoryStorage.ReadAll
          (InMemoryStorage.Delete (createSeq ⟨0, []⟩ inputs) k).1,
        ∃ i : Fin inputs.length,
          (i : Int) + 1 ≠ k
          ∧ nt = ⟨(i : Int) + 1, (inputs.get i).1, (inputs.get i).2⟩ := by
  have hseq : createSeq ⟨0, []⟩ inputs = ⟨(0 : Int) + inputs.length, [] ++ seqEntries 0 inputs⟩ :=
    createSeq_eq inputs 0 [] (fun p hp => absurd hp (List.not_mem_nil p))
      (by omega) (by omega)
  rw [List.nil_append] at hseq
  constructor
  · rw [hseq]
    simp only [InMemoryStorage.Delete, InMemoryStorage.ReadAll, List.length_map]
    exact eraseKey_seqEntries_length inputs 0 k (by omega) (by omega)
  · intro nt hnt
    rw [hseq] at hnt
    simp only [InMemoryStorage.Delete, InMemoryStorage.ReadAll] at hnt
    rcases List.mem_map.mp hnt with ⟨p, hpmem, hpsnd⟩
    rcases mem_eraseKey _ k p hpmem with ⟨hpin, hpne⟩
    rcases seqEntries_mem inputs 0 p hpin with ⟨i, hi⟩
    refine ⟨i, ?_, ?_⟩
    · intro hik
      apply hpne
      rw [hi]
      show (0 : Int) + 1 + (i : Int) = k
      omega
    · rw [← hpsnd, hi]
      show (⟨(0 : Int) + 1 + (i : Int), (inputs.get i).1, (inputs.get i).2⟩ : Note) = _
      congr 1
      omega

/-! Use-case messages and results (src/main.go lines 92-183). -/

structure ReadAllMessage where
deriving DecidableEq

structure ReadAllResult where
  notes : List Note
deriving DecidableEq

structure ReadMessage where
  id : Int
deriving DecidableEq

structure ReadResult where
  note : Note
deriving DecidableEq

structure CreateMessage where
  name : String
  content : String
deriving DecidableEq

structure CreateResult where
  note : Note
deriving DecidableEq

structure UpdateMessage where
  id : Int
  name : String
  content : String
deriving DecidableEq

structure UpdateResult where
  note : Note
deriving DecidableEq

structure DeleteMessage where
  id : Int
deriving DecidableEq

structure DeleteResult where
  note : Note
deriving DecidableEq

/-- ReadCommand.execute: pass-through to Storage.Read. -/
def ReadCommand.execute (s : Globals) (i : ReadMessage) : ReadResult :=
  ⟨InMemoryStorage.Read s i.id⟩

/-- ReadAllCommand.execute: pass-through to Storage.ReadAll. -/
def ReadAllCommand.execute (s : Globals) (_ : ReadAllMessage) : ReadAllResult :=
  ⟨InMemoryStorage.ReadAll s⟩

/-- CreateCommand.execute: pass-through to Storage.Create. -/
def CreateCommand.execute (s : Globals) (i : CreateMessage) :
    Globals × CreateResult :=
  ((InMemoryStorage.Create s i.name i.content).1,
   ⟨(InMemoryStorage.Create s i.name i.content).2⟩)

/-- UpdateCommand.execute: pass-through to Storage.Update. -/
def UpdateCommand.execute (s : Globals) (i : UpdateMessage) :
    Globals × UpdateResult :=
  ((InMemoryStorage.Update s i.id i.name i.content).1,
   ⟨(InMemoryStorage.Update s i.id i.name i.content).2⟩)

/-- DeleteCommand.execute: pass-through to Storage.Delete. -/
def DeleteCommand.execute (s : Globals) (i : DeleteMessage) :
    Globals × DeleteResult :=
  ((InMemoryStorage.Delete s i.id).1, ⟨(InMemoryStorage.Delete s i.id).2⟩)

/-! The Go standard-library pieces the applications use, modelled over
explicit character lists so that everything evaluates in the kernel. -/

/-- The numeric value of an ASCII digit character, if it is one. -/
def digitVal (c : Char) : Option Nat :=
  if '0' ≤ c ∧ c ≤ '9' then some (c.toNat - '0'.toNat) else none

/-- Accumulate decimal digits; fails on the first non-digit character. -/
def parseDigitsAux : Nat → List Char → Option Nat
  | acc, [] => some acc
  | acc, c :: rest =>
    match digitVal c with
    | none => none
    | some d => parseDigitsAux (acc * 10 + d) rest

/-- Parse a non-empty all-digit character list as a natural number. -/
def parseDigits : List Char → Option Nat
  | [] => none
  | l => parseDigitsAux 0 l

/-- The largest value of the 64-bit Go int. -/
def int64MaxNat : Nat := 9223372036854775807

/-- Models Go strconv.Atoi on a 64-bit platform: an optional single sign
followed by at least one decimal digit, erroring on any other character and
on values outside the int64 range.  The error case is modelled as none. -/
def atoi (s : String) : Option Int :=
  match s.data with
  | [] => none
  | '+' :: rest =>
    match parseDigits rest with
    | none => none
    | some n => if n ≤ int64MaxNat then some (n : Int) else none
  | '-' :: rest =>
    match parseDigits rest with
    | none => none
    | some n => if n ≤ int64MaxNat + 1 then some (-(n : Int)) else none
  | l =>
    match parseDigits l with
    | none => none
    | some n => if n ≤ int64MaxNat then some (n : Int) else none

/-- The white-space set of Go strings.TrimSpace, that is unicode.IsSpace:
tab, newline, vertical tab, form feed, carriage return, space, next line,
no-break space, and the White_Space code points above Latin-1 (ogham space
mark, the en-quad through hair-space range, line and paragraph separators,
narrow no-break space, medium mathematical space, ideographic space). -/
def goIsSpace (c : Char) : Bool :=
  c = '\t' || c = '\n' || c = '\x0b' || c = '\x0c' || c = '\r' || c = ' '
    || c = '\x85' || c = '\xa0' || c = '\u1680'
    || ('\u2000' ≤ c && c ≤ '\u200a') || c = '\u2028' || c = '\u2029'
    || c = '\u202f' || c = '\u205f' || c = '\u3000'

/-- Models Go strings.Split with a one-character separator: the list of
(possibly empty) chunks between separators; never empty. -/
def splitGo (sep : Char) : List Char → List (List Char)
  | [] => [[]]
  | c :: rest =>
    match splitGo sep rest with
    | [] => [[c]]
    | h :: t => if c = sep then [] :: h :: t else (c :: h) :: t

/-- Models Go strings.TrimSpace on the character list of a string. -/
def trimCharsGo (l : List Char) : List Char :=
  ((l.dropWhile goIsSpace).reverse.dropWhile goIsSpace).reverse

/-- Go strings.TrimSpace. -/
def trimGo (s : String) : String := ⟨trimCharsGo s.data⟩

/-- The REPL loop tokenization (src/main.go lines 367-370): split the input
line on ";" and trim each token. -/
def tokenizeGo (input : String) : List String :=
  (splitGo ';' input.data).map (fun cs => ⟨trimCharsGo cs⟩)

/-- The distinct panics the program can die with: out-of-range slice index,
strconv.Atoi error, unknown REPL command, unknown HTTP method. -/
inductive GoPanic where
  | indexOutOfRange
  | strconvError
  | unknownCommand
  | unknownMethod
deriving DecidableEq

/-! Parsers (src/main.go lines 206-283).  The REPL variants read fixed token
indices, so a Go panic (out-of-range index or Atoi error) is modelled as an
Except error; the HTTP variants for Read, Create, Update and Delete ignore
the request and return the zero-valued message, exactly as in the source. -/

/-- An HTTP request as the handlers see it: the method and the value of the
id query parameter, the empty string when the parameter is absent. -/
structure HttpRequest where
  method : String
  idQuery : String
deriving DecidableEq

/-- ReadAllParser.fromRepl: the message has no fields. -/
def ReadAllParser.fromRepl (_ : List String) : ReadAllMessage := ⟨⟩

/-- ReadAllParser.fromHttp: the message has no fields. -/
def ReadAllParser.fromHttp (_ : HttpRequest) : ReadAllMessage := ⟨⟩

/-- ReadParser.fromRepl (lines 228-237): reads token index 1 (panicking when
the list is shorter) and runs Atoi on it, panicking on error. -/
def ReadParser.fromRepl : List String → Except GoPanic ReadMessage
  | [] => .error .indexOutOfRange
  | [_] => .error .indexOutOfRange
  | _ :: tok :: _ =>
    match atoi tok with
    | none => .error .strconvError
    | some n => .ok ⟨n⟩

/-- ReadParser.fromHttp (lines 224-226): returns ReadMessage{}, ignoring
the request entirely, so the id field is always 0. -/
def ReadParser.fromHttp (_ : HttpRequest) : ReadMessage := ⟨0⟩

/-- CreateParser.fromRepl (lines 245-252): tokens 1 and 2 verbatim,
panicking when the list is shorter. -/
def CreateParser.fromRepl : List String → Except GoPanic CreateMessage
  | _ :: name :: content :: _ => .ok ⟨name, content⟩
  | _ => .error .indexOutOfRange

/-- CreateParser.fromHttp (lines 241-243): unimplemented stub returning the
zero-valued message. -/
def CreateParser.fromHttp (_ : HttpRequest) : CreateMessage := ⟨"", ""⟩

/-- UpdateParser.fromRepl (lines 260-273): token 1 through Atoi (Atoi runs,
and can panic, before tokens 2 and 3 are indexed), then tokens 2 and 3
verbatim. -/
def UpdateParser.fromRepl : List String → Except GoPanic UpdateMessage
  | _ :: tok :: rest =>
    (match atoi tok with
     | none => .error .strconvError
     | some n =>
       match rest with
       | name :: content :: _ => .ok ⟨n, name, content⟩
       | _ => .error .indexOutOfRange)
  | _ => .error .indexOutOfRange

/-- UpdateParser.fromHttp (lines 256-258): unimplemented stub returning the
zero-valued message. -/
def UpdateParser.fromHttp (_ : HttpRequest) : UpdateMessage := ⟨0, "", ""⟩

/-- DeleteParser.fromRepl (lines 281-283): ignores the tokens and returns
DeleteMessage{}, so the id field is always 0. -/
def DeleteParser.fromRepl (_ : List String) : DeleteMessage := ⟨0⟩

/-- DeleteParser.fromHttp (lines 277-279): unimplemented stub returning the
zero-valued message. -/
def DeleteParser.fromHttp (_ : HttpRequest) : DeleteMessage := ⟨0⟩

/-! The REPL application (src/main.go lines 315-386). -/

/-- What the REPL presenter prints for one dispatched command. -/
inductive ReplOutput where
  | printCreate (r : CreateResult)
  | printRead (r : ReadResult)
  | printReadAll (r : ReadAllResult)
  | printUpdate (r : UpdateResult)
  | printDelete (r : DeleteResult)
deriving DecidableEq

/-- ReplApplication.handleCreate: parse, execute, present. -/
def ReplApplication.handleCreate (args : List String) (s : Globals) :
    Except GoPanic (Globals × ReplOutput) :=
  match CreateParser.fromRepl args with
  | .error p => .error p
  | .ok m => .ok ((CreateCommand.execute s m).1,
      .printCreate (CreateCommand.execute s m).2)

/-- ReplApplication.handleRead: parse, execute, present. -/
def ReplApplication.handleRead (args : List String) (s : Globals) :
    Except GoPanic (Globals × ReplOutput) :=
  match ReadParser.fromRepl args with
  | .error p => .error p
  | .ok m => .ok (s, .printRead (ReadCommand.execute s m))

/-- ReplApplication.handleReadAll: parse, execute, present. -/
def ReplApplication.handleReadAll (args : List String) (s : Globals) :
    Globals × ReplOutput :=
  (s, .printReadAll (ReadAllCommand.execute s (ReadAllParser.fromRepl args)))

/-- ReplApplication.handleUpdate: parse, execute, present. -/
def ReplApplication.handleUpdate (args : List String) (s : Globals) :
    Except GoPanic (Globals × ReplOutput) :=
  match UpdateParser.fromRepl args with
  | .error p => .error p
  | .ok m => .ok ((UpdateCommand.execute s m).1,
      .printUpdate (UpdateCommand.execute s m).2)

/-- ReplApplication.handleDelete: parse (always the zero message), execute,
present. -/
def ReplApplication.handleDelete (args : List String) (s : Globals) :
    Globals × ReplOutput :=
  ((DeleteCommand.execute s (DeleteParser.fromRepl args)).1,
   .printDelete (DeleteCommand.execute s (DeleteParser.fromRepl args)).2)

/-- ReplApplication.shouldExit (lines 352-354). -/
def ReplApplication.shouldExit (input : String) : Bool := trimGo input == "exit"

/-- The switch on args[0] of ReplApplication.run (lines 371-384); any other
keyword panics with Unknown command. -/
def ReplApplication.dispatch (args : List String) (s : Globals) :
    Except GoPanic (Globals × ReplOutput) :=
  match args.get? 0 with
  | none => .error .indexOutOfRange
  | some a0 =>
    if a0 = "CREATE" then ReplApplication.handleCreate args s
    else if a0 = "READ" then ReplApplication.handleRead args s
    else if a0 = "READALL" then .ok (ReplApplication.handleReadAll args s)
    else if a0 = "UPDATE" then ReplApplication.handleUpdate args s
    else if a0 = "DELETE" then .ok (ReplApplication.handleDelete args s)
    else .error .unknownCommand

/-- The outcome of one REPL loop turn: the loop exits, or it dispatched a
command and continues with the new globals. -/
inductive ReplStep where
  | exited
  | stepped (s : Globals) (out : ReplOutput)
deriving DecidableEq

/-- One turn of the ReplApplication.run loop on an already-read line: exit
when the trimmed line is "exit", otherwise tokenize and dispatch. -/
def ReplApplication.processLine (input : String) (s : Globals) :
    Except GoPanic ReplStep :=
  if ReplApplication.shouldExit input then .ok .exited
  else
    match ReplApplication.dispatch (tokenizeGo input) s with
    | .error p => .error p
    | .ok (s2, out) => .ok (.stepped s2 out)

/-! The HTTP application (src/main.go lines 388-446). -/

/-- The JSON-presented result of one handled HTTP request. -/
inductive HttpOutput where
  | jsonReadAll (r : ReadAllResult)
  | jsonRead (r : ReadResult)
  | jsonCreate (r : CreateResult)
  | jsonUpdate (r : UpdateResult)
  | jsonDelete (r : DeleteResult)
deriving DecidableEq

/-- HttpApplication.handleGet (lines 395-410): ReadAll when the id query
parameter is absent; otherwise check the parameter with Atoi (panicking on
error) and then execute Read with the stub-parsed message, whose id is 0. -/
def HttpApplication.handleGet (r : HttpRequest) (s : Globals) :
    Except GoPanic (Globals × HttpOutput) :=
  if r.idQuery = "" then
    .ok (s, .jsonReadAll (ReadAllCommand.execute s (ReadAllParser.fromHttp r)))
  else
    match atoi r.idQuery with
    | none => .error .strconvError
    | some _ => .ok (s, .jsonRead (ReadCommand.execute s (ReadParser.fromHttp r)))

/-- HttpApplication.handlePost: create from the stub message. -/
def HttpApplication.handlePost (r : HttpRequest) (s : Globals) :
    Globals × HttpOutput :=
  ((CreateCommand.execute s (CreateParser.fromHttp r)).1,
   .jsonCreate (CreateCommand.execute s (CreateParser.fromHttp r)).2)

/-- HttpApplication.handlePut: update from the stub message. -/
def HttpApplication.handlePut (r : HttpRequest) (s : Globals) :
    Globals × HttpOutput :=
  ((UpdateCommand.execute s (UpdateParser.fromHttp r)).1,
   .jsonUpdate (UpdateCommand.execute s (UpdateParser.fromHttp r)).2)

/-- HttpApplication.handleDelete: delete from the stub message. -/
def HttpApplication.handleDelete (r : HttpRequest) (s : Globals) :
    Globals × HttpOutput :=
  ((DeleteCommand.execute s (DeleteParser.fromHttp r)).1,
   .jsonDelete (DeleteCommand.execute s (DeleteParser.fromHttp r)).2)

/-- The method switch of HttpApplication.run (lines 430-444); any other
method panics with Uknown method. -/
def HttpApplication.route (r : HttpRequest) (s : Globals) :
    Except GoPanic (Globals × HttpOutput) :=
  if r.method = "GET" then HttpApplication.handleGet r s
  else if r.method = "POST" then .ok (HttpApplication.handlePost r s)
  else if r.method = "PUT" then .ok (HttpApplication.handlePut r s)
  else if r.method = "DELETE" then .ok (HttpApplication.handleDelete r s)
  else .error .unknownMethod

/-- Witness for claim C5: two creates, then delete of id 1. -/
theorem c5_readall_after_creates_and_delete_witness :
    (1 : Int) ≤ 1
    ∧ (1 : Int) ≤ (([("a", "b"), ("c", "d")] : List (String × String)).length : Int)
    ∧ (([("a", "b"), ("c", "d")] : List (String × String)).length : Int)
        < 9223372036854775808
    ∧ ((InMemoryStorage.ReadAll
          (InMemoryStorage.Delete
            (createSeq ⟨0, []⟩ [("a", "b"), ("c", "d")]) 1).1).length + 1
        = ([("a", "b"), ("c", "d")] : List (String × String)).length
      ∧ ∀ nt ∈ InMemoryStorage.ReadAll
            (InMemoryStorage.Delete
              (createSeq ⟨0, []⟩ [("a", "b"), ("c", "d")]) 1).1,
          ∃ i : Fin ([("a", "b"), ("c", "d")] : List (String × String)).length,
            (i : Int) + 1 ≠ 1
            ∧ nt = ⟨(i : Int) + 1,
                (([("a", "b"), ("c", "d")] : List (String × String)).get i).1,
                (([("a", "b"), ("c", "d")] : List (String × String)).get i).2⟩) :=
  ⟨by decide, by decide, by decide,
   c5_readall_after_creates_and_delete [("a", "b"), ("c", "d")] 1
     (by decide) (by decide) (by decide)⟩

/-- Claim C7: DeleteParser.fromRepl never reads its tokens, so a dispatched
REPL DELETE always invokes storage Delete with id 0; and the HTTP Create,
Update and Delete parsers return zero-valued messages for every request, so
HTTP create, update and delete cannot supply a name, content or id. -/
theorem c7_delete_and_http_parsers_are_stubs (args : List String)
    (r : HttpRequest) (s : Globals) :
    DeleteParser.fromRepl args = ⟨0⟩
    ∧ (args.get? 0 = some "DELETE" →
        ReplApplication.dispatch args s
          = .ok ((InMemoryStorage.Delete s 0).1,
              .printDelete ⟨(InMemoryStorage.Delete s 0).2⟩))
    ∧ CreateParser.fromHttp r = ⟨"", ""⟩
    ∧ UpdateParser.fromHttp r = ⟨0, "", ""⟩
    ∧ DeleteParser.fromHttp r = ⟨0⟩ := by
  refine ⟨rfl, ?_, rfl, rfl, rfl⟩
  intro h0
  rw [ReplApplication.dispatch, h0]
  rfl

/-- Witness for claim C7 at a concrete token list, request and state. -/
theorem c7_delete_and_http_parsers_are_stubs_witness :
    DeleteParser.fromRepl ["DELETE", "3"] = ⟨0⟩
    ∧ ReplApplication.dispatch ["DELETE", "3"] ⟨1, [(1, ⟨1, "a", "b"⟩)]⟩
        = .ok ((InMemoryStorage.Delete ⟨1, [(1, ⟨1, "a", "b"⟩)]⟩ 0).1,
            .printDelete ⟨(InMemoryStorage.Delete ⟨1, [(1, ⟨1, "a", "b"⟩)]⟩ 0).2⟩)
    ∧ CreateParser.fromHttp ⟨"POST", ""⟩ = ⟨"", ""⟩
    ∧ UpdateParser.fromHttp ⟨"PUT", ""⟩ = ⟨0, "", ""⟩
    ∧ DeleteParser.fromHttp ⟨"DELETE", ""⟩ = ⟨0⟩ :=
  ⟨(c7_delete_and_http_parsers_are_stubs ["DELETE", "3"] ⟨"POST", ""⟩
      ⟨1, [(1, ⟨1, "a", "b"⟩)]⟩).1,
   (c7_delete_and_http_parsers_are_stubs ["DELETE", "3"] ⟨"POST", ""⟩
      ⟨1, [(1, ⟨1, "a", "b"⟩)]⟩).2.1 rfl,
   (c7_delete_and_http_parsers_are_stubs ["DELETE", "3"] ⟨"POST", ""⟩
      ⟨1, [(1, ⟨1, "a", "b"⟩)]⟩).2.2.1,
   (c7_delete_and_http_parsers_are_stubs ["DELETE", "3"] ⟨"PUT", ""⟩
      ⟨1, [(1, ⟨1, "a", "b"⟩)]⟩).2.2.2.1,
   (c7_delete_and_http_parsers_are_stubs ["DELETE", "3"] ⟨"DELETE", ""⟩
      ⟨1, [(1, ⟨1, "a", "b"⟩)]⟩).2.2.2.2⟩

/-- Claim C9: a REPL token list shorter than the indices a parser reads is
an out-of-range index panic even when every present token is well-formed:
Read and Create and Update read token 1, Create also reads token 2, and
Update reads tokens 2 and 3 after a successful Atoi on token 1. -/
theorem c9_short_token_lists_index_panic (s : List String) :
    (s.length < 2 → ReadParser.fromRepl s = .error .indexOutOfRange)
    ∧ (s.length < 3 → CreateParser.fromRepl s = .error .indexOutOfRange)
    ∧ (s.length < 2 → UpdateParser.fromRepl s = .error .indexOutOfRange)
    ∧ (∀ tok, s.get? 1 = some tok → (atoi tok).isSome = true → s.length < 4 →
        UpdateParser.fromRepl s = .error .indexOutOfRange) := by
  refine ⟨?_, ?_, ?_, ?_⟩
  · intro h
    rcases s with _ | ⟨a, _ | ⟨b, rest⟩⟩
    · rfl
    · rfl
    · simp only [List.length_cons] at h; omega
  · intro h
    rcases s with _ | ⟨a, _ | ⟨b, _ | ⟨c, rest⟩⟩⟩
    · rfl
    · rfl
    · rfl
    · simp only [List.length_cons] at h; omega
  · intro h
    rcases s with _ | ⟨a, _ | ⟨b, rest⟩⟩
    · rfl
    · rfl
    · simp only [List.length_cons] at h; omega
  · intro tok htok hsome hlen
    rcases s with _ | ⟨a, _ | ⟨b, _ | ⟨c, _ | ⟨d, rest⟩⟩⟩⟩
    · simp at htok
    · simp at htok
    · simp only [List.get?] at htok
      rcases Option.isSome_iff_exists.mp hsome with ⟨n, hn⟩
      injection htok with hb
      subst hb
      simp [UpdateParser.fromRepl, hn]
    · simp only [List.get?] at htok
      rcases Option.isSome_iff_exists.mp hsome with ⟨n, hn⟩
      injection htok with hb
      subst hb
      simp [UpdateParser.fromRepl, hn]
    · simp only [List.length_cons] at hlen; omega

/-- Witness for claim C9: a bare READ, a CREATE with one token, and an
UPDATE with a numeric id but no content token. -/
theorem c9_short_token_lists_index_panic_witness :
    (["READ"].length < 2
      ∧ ReadParser.fromRepl ["READ"] = .error .indexOutOfRange)
    ∧ (["CREATE", "foo"].length < 3
      ∧ CreateParser.fromRepl ["CREATE", "foo"] = .error .indexOutOfRange)
    ∧ (["UPDATE"].length < 2
      ∧ UpdateParser.fromRepl ["UPDATE"] = .error .indexOutOfRange)
    ∧ (["UPDATE", "1", "nm"].get? 1 = some "1"
      ∧ (atoi "1").isSome = true
      ∧ ["UPDATE", "1", "nm"].length < 4
      ∧ UpdateParser.fromRepl ["UPDATE", "1", "nm"] = .error .indexOutOfRange) :=
  ⟨⟨by decide, (c9_short_token_lists_index_panic ["READ"]).1 (by decide)⟩,
   ⟨by decide,
    (c9_short_token_lists_index_panic ["CREATE", "foo"]).2.1 (by decide)⟩,
   ⟨by decide,
    (c9_short_token_lists_index_panic ["UPDATE"]).2.2.1 (by decide)⟩,
   ⟨by rfl, by rfl, by decide,
    (c9_short_token_lists_index_panic ["UPDATE", "1", "nm"]).2.2.2 "1"
      (by rfl) (by rfl) (by decide)⟩⟩

/-! Dispatch-level helpers for the fatal-input claims. -/

theorem readParserFromReplStrconv (a tok : String) (rest : List String)
    (ha : atoi tok = none) :
    ReadParser.fromRepl (a :: tok :: rest) = .error .strconvError := by
  show (match atoi tok with
        | none => Except.error GoPanic.strconvError
        | some n => Except.ok (ReadMessage.mk n))
      = Except.error GoPanic.strconvError
  rw [ha]

theorem updateParserFromReplStrconv (a tok : String) (rest : List String)
    (ha : atoi tok = none) :
    UpdateParser.fromRepl (a :: tok :: rest) = .error .strconvError := by
  show (match atoi tok with
        | none => Except.error GoPanic.strconvError
        | some n =>
          match rest with
          | name :: content :: _ => Except.ok (UpdateMessage.mk n name content)
          | _ => Except.error GoPanic.indexOutOfRange)
      = Except.error GoPanic.strconvError
  rw [ha]

theorem ReplApplication.dispatch_strconv_of_read_or_update (args : List String)
    (s : Globals) (tok : String)
    (h0 : args.get? 0 = some "READ" ∨ args.get? 0 = some "UPDATE")
    (h1 : args.get? 1 = some tok) (ha : atoi tok = none) :
    ReplApplication.dispatch args s = .error .strconvError := by
  rcases args with _ | ⟨a, _ | ⟨b, rest⟩⟩
  · rcases h0 with h | h <;> exact absurd h (by simp)
  · exact absurd h1 (by simp)
  · have hb : b = tok := by
      have hx : some b = some tok := h1
      injection hx
    subst hb
    rcases h0 with h | h
    · have ha0 : a = "READ" := by
        have hx : some a = some "READ" := h
        injection hx
      subst ha0
      have hstep : ReplApplication.dispatch ("READ" :: b :: rest) s
          = ReplApplication.handleRead ("READ" :: b :: rest) s := rfl
      rw [hstep, ReplApplication.handleRead,
        readParserFromReplStrconv "READ" b rest ha]
    · have ha0 : a = "UPDATE" := by
        have hx : some a = some "UPDATE" := h
        injection hx
      subst ha0
      have hstep : ReplApplication.dispatch ("UPDATE" :: b :: rest) s
          = ReplApplication.handleUpdate ("UPDATE" :: b :: rest) s := rfl
      rw [hstep, ReplApplication.handleUpdate,
        updateParserFromReplStrconv "UPDATE" b rest ha]

theorem ReplApplication.dispatch_unknown_keyword (args : List String)
    (s : Globals) (a0 : String) (h0 : args.get? 0 = some a0)
    (hC : a0 ≠ "CREATE") (hR : a0 ≠ "READ") (hRA : a0 ≠ "READALL")
    (hU : a0 ≠ "UPDATE") (hD : a0 ≠ "DELETE") :
    ReplApplication.dispatch args s = .error .unknownCommand := by
  rw [ReplApplication.dispatch, h0]
  show (if a0 = "CREATE" then ReplApplication.handleCreate args s
        else if a0 = "READ" then ReplApplication.handleRead args s
        else if a0 = "READALL" then Except.ok (ReplApplication.handleReadAll args s)
        else if a0 = "UPDATE" then ReplApplication.handleUpdate args s
        else if a0 = "DELETE" then Except.ok (ReplApplication.handleDelete args s)
        else Except.error GoPanic.unknownCommand)
      = Except.error GoPanic.unknownCommand
  rw [if_neg hC, if_neg hR, if_neg hRA, if_neg hU, if_neg hD]

/-- Claim C8: malformed input is fatal, never an error result.  A REPL line
that is not the exit line and whose command is READ or UPDATE with a
non-numeric id token dies with the Atoi panic; a REPL line whose first
token is none of the five command keywords dies with the unknown-command
panic; an HTTP GET whose id query parameter does not parse dies with the
Atoi panic; and an HTTP request with an unknown method dies with the
unknown-method panic. -/
theorem c8_malformed_input_is_fatal (s : Globals) :
    (∀ (input tok : String),
        ReplApplication.shouldExit input = false →
        ((tokenizeGo input).get? 0 = some "READ"
          ∨ (tokenizeGo input).get? 0 = some "UPDATE") →
        (tokenizeGo input).get? 1 = some tok →
        atoi tok = none →
        ReplApplication.processLine input s = .error .strconvError)
    ∧ (∀ (input a0 : String),
        ReplApplication.shouldExit input = false →
        (tokenizeGo input).get? 0 = some a0 →
        a0 ≠ "CREATE" → a0 ≠ "READ" → a0 ≠ "READALL" → a0 ≠ "UPDATE" →
        a0 ≠ "DELETE" →
        ReplApplication.processLine input s = .error .unknownCommand)
    ∧ (∀ r : HttpRequest, r.method = "GET" → r.idQuery ≠ "" →
        atoi r.idQuery = none →
        HttpApplication.route r s = .error .strconvError)
    ∧ (∀ r : HttpRequest,
        r.method ≠ "GET" → r.method ≠ "POST" → r.method ≠ "PUT" →
        r.method ≠ "DELETE" →
        HttpApplication.route r s = .error .unknownMethod) := by
  refine ⟨?_, ?_, ?_, ?_⟩
  · intro input tok hexit hcmd htok hatoi
    rw [ReplApplication.processLine, if_neg (by simp [hexit]),
      ReplApplication.dispatch_strconv_of_read_or_update (tokenizeGo input) s tok
        hcmd htok hatoi]
  · intro input a0 hexit h0 hC hR hRA hU hD
    rw [ReplApplication.processLine, if_neg (by simp [hexit]),
      ReplApplication.dispatch_unknown_keyword (tokenizeGo input) s a0
        h0 hC hR hRA hU hD]
  · intro r hm hq ha
    rw [HttpApplication.route, if_pos hm, HttpApplication.handleGet,
      if_neg hq, ha]
  · intro r h1 h2 h3 h4
    rw [HttpApplication.route, if_neg h1, if_neg h2, if_neg h3, if_neg h4]

/-- Witness for claim C8: the line READ;notanumber, the line FROB;1, a GET
with a non-numeric id, and a PATCH request. -/
theorem c8_malformed_input_is_fatal_witness :
    ReplApplication.processLine "READ;notanumber" ⟨0, []⟩
        = .error .strconvError
    ∧ ReplApplication.processLine "FROB;1" ⟨0, []⟩ = .error .unknownCommand
    ∧ HttpApplication.route ⟨"GET", "abc"⟩ ⟨0, []⟩ = .error .strconvError
    ∧ HttpApplication.route ⟨"PATCH", ""⟩ ⟨0, []⟩ = .error .unknownMethod :=
  ⟨(c8_malformed_input_is_fatal ⟨0, []⟩).1 "READ;notanumber" "notanumber"
     (by rfl) (Or.inl (by rfl)) (by rfl) (by rfl),
   (c8_malformed_input_is_fatal ⟨0, []⟩).2.1 "FROB;1" "FROB"
     (by rfl) (by rfl) (by decide) (by decide) (by decide) (by decide)
     (by decide),
   (c8_malformed_input_is_fatal ⟨0, []⟩).2.2.1 ⟨"GET", "abc"⟩
     rfl (by decide) (by rfl),
   (c8_malformed_input_is_fatal ⟨0, []⟩).2.2.2 ⟨"PATCH", ""⟩
     (by decide) (by decide) (by decide) (by decide)⟩

/-- Counterexample to claim C6 as stated: after one create (which stores
the note under id 1), a GET with id query parameter 1 does not return the
created note; the Read message is the zero-valued stub, so the response
carries the note read at id 0, the zero-valued Note, which differs from the
created note. -/
theorem c6_counterexample_get_returns_zero_note :
    HttpApplication.route ⟨"GET", "1"⟩ (InMemoryStorage.Create ⟨0, []⟩ "A" "B").1
        = .ok ((InMemoryStorage.Create ⟨0, []⟩ "A" "B").1, .jsonRead ⟨Note.zero⟩)
    ∧ Note.zero ≠ (InMemoryStorage.Create ⟨0, []⟩ "A" "B").2 :=
  ⟨rfl, by decide⟩

/-- Claim C6 amended: a GET with no id query parameter returns the full
collection; a GET whose id parameter passes the numeric check reaches Read
through the stub parser, so storage Read runs with id 0 and the response
carries the note stored at id 0 (after one create, the zero-valued Note),
not the note named by the parameter. -/
theorem c6_amended_get_reads_stub_id (s : Globals) (r : HttpRequest) (n : Int) :
    (r.method = "GET" → r.idQuery = "" →
        HttpApplication.route r s
          = .ok (s, .jsonReadAll ⟨InMemoryStorage.ReadAll s⟩))
    ∧ (r.method = "GET" → atoi r.idQuery = some n →
        HttpApplication.route r s
          = .ok (s, .jsonRead ⟨InMemoryStorage.Read s 0⟩)) := by
  constructor
  · intro hm hq
    rw [HttpApplication.route, if_pos hm, HttpApplication.handleGet, if_pos hq]
    rfl
  · intro hm ha
    have hq : ¬ (r.idQuery = "") := by
      intro he
      rw [he] at ha
      exact Option.noConfusion ha
    rw [HttpApplication.route, if_pos hm, HttpApplication.handleGet,
      if_neg hq, ha]
    rfl

/-- Witness for the amended claim C6 after one create. -/
theorem c6_amended_get_reads_stub_id_witness :
    atoi "1" = some 1
    ∧ HttpApplication.route ⟨"GET", "1"⟩ (InMemoryStorage.Create ⟨0, []⟩ "A" "B").1
        = .ok ((InMemoryStorage.Create ⟨0, []⟩ "A" "B").1,
            .jsonRead ⟨InMemoryStorage.Read (InMemoryStorage.Create ⟨0, []⟩ "A" "B").1 0⟩)
    ∧ HttpApplication.route ⟨"GET", ""⟩ (InMemoryStorage.Create ⟨0, []⟩ "A" "B").1
        = .ok ((InMemoryStorage.Create ⟨0, []⟩ "A" "B").1,
            .jsonReadAll ⟨InMemoryStorage.ReadAll (InMemoryStorage.Create ⟨0, []⟩ "A" "B").1⟩) :=
  ⟨by rfl,
   (c6_amended_get_reads_stub_id (InMemoryStorage.Create ⟨0, []⟩ "A" "B").1
      ⟨"GET", "1"⟩ 1).2 rfl (by rfl),
   (c6_amended_get_reads_stub_id (InMemoryStorage.Create ⟨0, []⟩ "A" "B").1
      ⟨"GET", ""⟩ 0).1 rfl rfl⟩

/-- Witness for claim C2 at a one-note state and its present id. -/
theorem c2_update_empty_means_no_change_witness :
    NoteMap.hasKey (Globals.mk 1 [(1, ⟨1, "n", "c"⟩)]).noteMap 1 = true
    ∧ (InMemoryStorage.Update ⟨1, [(1, ⟨1, "n", "c"⟩)]⟩ 1 "" "z").2
        = { InMemoryStorage.Read ⟨1, [(1, ⟨1, "n", "c"⟩)]⟩ 1 with content := "z" }
    ∧ (InMemoryStorage.Update ⟨1, [(1, ⟨1, "n", "c"⟩)]⟩ 1 "" "").2
        = InMemoryStorage.Read ⟨1, [(1, ⟨1, "n", "c"⟩)]⟩ 1
    ∧ InMemoryStorage.Read
          (InMemoryStorage.Update ⟨1, [(1, ⟨1, "n", "c"⟩)]⟩ 1 "" "").1 1
        = InMemoryStorage.Read ⟨1, [(1, ⟨1, "n", "c"⟩)]⟩ 1 :=
  ⟨by decide,
   ((c2_update_empty_means_no_change ⟨1, [(1, ⟨1, "n", "c"⟩)]⟩ 1 (by decide)).1
      "z" (by decide)).1,
   (c2_update_empty_means_no_change ⟨1, [(1, ⟨1, "n", "c"⟩)]⟩ 1 (by decide)).2.1,
   (c2_update_empty_means_no_change ⟨1, [(1, ⟨1, "n", "c"⟩)]⟩ 1 (by decide)).2.2 1⟩

/-- Witness for claim C3 at the empty state and an absent id. -/
theorem c3_update_absent_creates_entry_witness :
    NoteMap.hasKey (Globals.mk 0 []).noteMap 7 = false
    ∧ (InMemoryStorage.Update ⟨0, []⟩ 7 "nm" "ct").2 = ⟨0, "nm", "ct"⟩
    ∧ InMemoryStorage.Read (InMemoryStorage.Update ⟨0, []⟩ 7 "nm" "ct").1 7
        = ⟨0, "nm", "ct"⟩
    ∧ NoteMap.hasKey (InMemoryStorage.Update ⟨0, []⟩ 7 "nm" "ct").1.noteMap 7
        = true :=
  ⟨by decide,
   (c3_update_absent_creates_entry ⟨0, []⟩ 7 "nm" "ct" (by decide)).1,
   (c3_update_absent_creates_entry ⟨0, []⟩ 7 "nm" "ct" (by decide)).2.1,
   (c3_update_absent_creates_entry ⟨0, []⟩ 7 "nm" "ct" (by decide)).2.2⟩

/-! Key invariants of the map under creates, used to refute the unbounded
form of the ReadAll count claim: from the empty state the map always has
distinct keys lying in the int64 range, so it can never hold more than 2^64
entries, while the claim would demand 2^64 + 1 - 1 of them after 2^64 + 1
creates and one delete. -/

theorem keys_mapReplace (m : NoteMap) (k : Int) (v : Note) :
    ((m.map (fun p => if p.1 = k then (k, v) else p)).map Prod.fst)
      = m.map Prod.fst := by
  induction m with
  | nil => rfl
  | cons p rest ih =>
    by_cases hp : p.1 = k
    · simp only [List.map_cons, if_pos hp, ih]
      rw [← hp]
    · simp only [List.map_cons, if_neg hp, ih]

theorem not_mem_keys_of_hasKey_false (m : NoteMap) (k : Int)
    (h : NoteMap.hasKey m k = false) : k ∉ m.map Prod.fst := by
  induction m with
  | nil => simp
  | cons p rest ih =>
    rw [NoteMap.hasKey] at h
    by_cases hp : p.1 = k
    · rw [if_pos hp] at h
      exact absurd h (by simp)
    · rw [if_neg hp] at h
      simp only [List.map_cons, List.mem_cons]
      rintro (h1 | h2)
      · exact hp h1.symm
      · exact ih h h2

theorem nodup_keys_insertKV (m : NoteMap) (k : Int) (v : Note)
    (h : (m.map Prod.fst).Nodup) :
    ((NoteMap.insertKV m k v).map Prod.fst).Nodup := by
  rw [NoteMap.insertKV]
  by_cases hk : NoteMap.hasKey m k
  · rw [if_pos hk, keys_mapReplace]
    exact h
  · rw [if_neg hk, List.map_append]
    refine List.Nodup.append h (List.nodup_singleton k) ?_
    intro a ha hmem
    have hak : a = k := by simpa using hmem
    subst hak
    exact not_mem_keys_of_hasKey_false m a (by simpa using hk) ha

theorem eraseKey_sublist (m : NoteMap) (k : Int) :
    (NoteMap.eraseKey m k).Sublist m := by
  induction m with
  | nil => exact List.Sublist.refl _
  | cons p rest ih =>
    rw [NoteMap.eraseKey]
    by_cases hp : p.1 = k
    · rw [if_pos hp]
      exact List.Sublist.cons p ih
    · rw [if_neg hp]
      exact List.Sublist.cons₂ p ih

theorem mem_insertKV (m : NoteMap) (k : Int) (v : Note) (q : Int × Note)
    (hq : q ∈ NoteMap.insertKV m k v) : q ∈ m ∨ q = (k, v) := by
  rw [NoteMap.insertKV] at hq
  by_cases hk : NoteMap.hasKey m k
  · rw [if_pos hk] at hq
    rcases List.mem_map.mp hq with ⟨p, hp, he⟩
    by_cases hpk : p.1 = k
    · rw [if_pos hpk] at he
      right
      exact he.symm
    · rw [if_neg hpk] at he
      left
      rw [← he]
      exact hp
  · rw [if_neg hk] at hq
    rcases List.mem_append.mp hq with h1 | h2
    · left; exact h1
    · right; simpa using h2

theorem createSeq_keys_nodup (inputs : List (String × String)) :
    ∀ s : Globals, (s.noteMap.map Prod.fst).Nodup →
      ((createSeq s inputs).noteMap.map Prod.fst).Nodup := by
  induction inputs with
  | nil => intro s hs; exact hs
  | cons p rest ih =>
    intro s hs
    rw [createSeq]
    exact ih (InMemoryStorage.Create s p.1 p.2).1
      (nodup_keys_insertKV s.noteMap (wrapInt64 (s.id + 1)) _ hs)

theorem createSeq_keys_int64 (inputs : List (String × String)) :
    ∀ s : Globals,
      (∀ p ∈ s.noteMap,
        -9223372036854775808 ≤ p.1 ∧ p.1 < 9223372036854775808) →
      ∀ p ∈ (createSeq s inputs).noteMap,
        -9223372036854775808 ≤ p.1 ∧ p.1 < 9223372036854775808 := by
  induction inputs with
  | nil => intro s hs; exact hs
  | cons q rest ih =>
    intro s hs
    rw [createSeq]
    refine ih (InMemoryStorage.Create s q.1 q.2).1 ?_
    intro p hp
    rcases mem_insertKV s.noteMap (wrapInt64 (s.id + 1)) _ p hp with h1 | h2
    · exact hs p h1
    · rw [h2]
      exact wrapInt64_mem_range (s.id + 1)

theorem noteMap_length_le_of_erased (m : NoteMap) (k : Int)
    (hnd : (m.map Prod.fst).Nodup)
    (hrange : ∀ p ∈ m, -9223372036854775808 ≤ p.1 ∧ p.1 < 9223372036854775808)
    (hne : ∀ p ∈ m, p.1 ≠ k)
    (hk1 : -9223372036854775808 ≤ k) (hk2 : k < 9223372036854775808) :
    m.length ≤ 18446744073709551615 := by
  classical
  have hsub : (m.map Prod.fst).toFinset
      ⊆ (Finset.Icc (-9223372036854775808 : Int) 9223372036854775807).erase k := by
    intro a ha
    rw [List.mem_toFinset] at ha
    rcases List.mem_map.mp ha with ⟨p, hp, he⟩
    rw [Finset.mem_erase]
    constructor
    · rw [← he]; exact hne p hp
    · rw [Finset.mem_Icc, ← he]
      have := hrange p hp
      omega
  have hS : ((Finset.Icc (-9223372036854775808 : Int) 9223372036854775807).erase k).card
      = 18446744073709551615 := by
    rw [Finset.card_erase_of_mem (by rw [Finset.mem_Icc]; omega),
      Int.card_Icc (-9223372036854775808 : Int) 9223372036854775807]
    decide
  have hcard : (m.map Prod.fst).toFinset.card = m.length := by
    rw [List.toFinset_card_of_nodup hnd, List.length_map]
  rw [← hcard]
  calc (m.map Prod.fst).toFinset.card
      ≤ ((Finset.Icc (-9223372036854775808 : Int) 9223372036854775807).erase k).card :=
        Finset.card_le_card hsub
    _ = 18446744073709551615 := hS

/-- After any sequence of creates from the empty state and one delete of an
in-range id, the map holds at most 2^64 - 1 entries: keys are distinct int64
values other than the deleted one. -/
theorem readall_delete_length_le (inputs : List (String × String)) (k : Int)
    (hk1 : -9223372036854775808 <= k) (hk2 : k < 9223372036854775808) :
    (InMemoryStorage.ReadAll
        (InMemoryStorage.Delete (createSeq (Globals.mk 0 []) inputs) k).1).length
      <= 18446744073709551615 := by
  have hmap : (InMemoryStorage.Delete (createSeq (Globals.mk 0 []) inputs) k).1.noteMap
      = NoteMap.eraseKey (createSeq (Globals.mk 0 []) inputs).noteMap k := rfl
  have hnd : (((createSeq (Globals.mk 0 []) inputs).noteMap.map Prod.fst)).Nodup :=
    createSeq_keys_nodup inputs (Globals.mk 0 []) (by simp)
  have hrange := createSeq_keys_int64 inputs (Globals.mk 0 [])
    (by intro p hp; exact absurd hp (List.not_mem_nil p))
  have hnd2 : ((NoteMap.eraseKey
      (createSeq (Globals.mk 0 []) inputs).noteMap k).map Prod.fst).Nodup :=
    List.Nodup.sublist (List.Sublist.map Prod.fst (eraseKey_sublist _ k)) hnd
  have hbound := noteMap_length_le_of_erased
    (NoteMap.eraseKey (createSeq (Globals.mk 0 []) inputs).noteMap k) k hnd2
    (fun p hp => hrange p (mem_eraseKey _ k p hp).1)
    (fun p hp => (mem_eraseKey _ k p hp).2)
    hk1 hk2
  have hlen : (InMemoryStorage.ReadAll
      (InMemoryStorage.Delete (createSeq (Globals.mk 0 []) inputs) k).1).length
      = (NoteMap.eraseKey (createSeq (Globals.mk 0 []) inputs).noteMap k).length := by
    rw [InMemoryStorage.ReadAll, hmap, List.length_map]
  rw [hlen]
  exact hbound

/-- Counterexample to claim C5 as stated: for N = 2^64 + 1 creates from the
empty state the wrapped 64-bit counter reuses map keys, so after deleting
the created id 1 the map holds at most 2^64 - 1 entries while the claim
demands N - 1 = 2^64 of them.  The guards of the claim (1 between 1 and N)
hold at this instance. -/
theorem c5_counterexample_int64_wrap :
    (1 : Int) <= 1
    ∧ (1 : Int) <= ((List.replicate 18446744073709551617
        (("", "") : String × String)).length : Int)
    ∧ ¬ ((InMemoryStorage.ReadAll
          (InMemoryStorage.Delete
            (createSeq (Globals.mk 0 [])
              (List.replicate 18446744073709551617 ("", ""))) 1).1).length + 1
        = (List.replicate 18446744073709551617
            (("", "") : String × String)).length) := by
  refine ⟨le_refl 1, ?_, ?_⟩
  · rw [List.length_replicate]
    omega
  · intro heq
    rw [List.length_replicate] at heq
    have hb := readall_delete_length_le
      (List.replicate 18446744073709551617 ("", "")) 1 (by omega) (by omega)
    omega
